import Mathlib

/-!
Verification of the music-video-gen orchestrator.

Shallow embedding of the code in `api/status.js`, `api/download.js` and the
segmentation / prompt-chaining pipeline that `api/generate.js` builds in
`buildKernelSource`.  Timestamps, energies and durations (Python floats) are
modelled as exact rationals `ℚ`; float literals such as `1e-9`, `.66`, `.33`
are modelled as the exact decimal rationals they denote.  Fallible code
(Python exceptions) is modelled with `Option`.
-/

namespace MVG

/-! ## Status reconciler (`api/status.js`, `mapStatus`, lines 14–23) -/

/-- The snapshot returned by `mapStatus`.  Branches of the JS `switch` that do
not mention `downloadUrl` are modelled with `downloadUrl = none`. -/
structure StatusSnapshot where
  uiStage : String
  progress : ℕ
  running : Bool
  done : Bool
  error : Bool
  downloadUrl : Option String
  deriving DecidableEq, Repr

/-- `mapStatus(kaggleStatus, outputUrl)` from `api/status.js` lines 14–23. -/
def mapStatus (kaggleStatus : String) (outputUrl : Option String) : StatusSnapshot :=
  if kaggleStatus = "queued" then
    ⟨"analysis", 5, true, false, false, none⟩
  else if kaggleStatus = "running" then
    ⟨"clips", 50, true, false, false, none⟩
  else if kaggleStatus = "complete" then
    ⟨"done", 100, false, true, false, outputUrl⟩
  else if kaggleStatus = "error" then
    ⟨"error", 0, false, false, true, none⟩
  else if kaggleStatus = "cancelled" then
    ⟨"cancelled", 0, false, false, true, none⟩
  else
    ⟨"queued", 2, true, false, false, none⟩

/-- The fixed kernel-output URL the status handler passes to `mapStatus`
(`api/status.js` line 41) when the Kaggle response has no `failureMessage`. -/
def kernelOutputUrl : String :=
  "https://www.kaggle.com/code/zackrandall/music-video-pipeline/output"

/-- `outputUrl` as computed by the status handler (`api/status.js` line 41):
`null` when a `failureMessage` is present, the fixed URL otherwise. -/
def outputUrlOf (failureMessage : Option String) : Option String :=
  if failureMessage.isSome then none else some kernelOutputUrl

/-! ## Per-clip frame count (`buildKernelSource`, kernel line
`nf = max(16, min(81, int((seg['end'] - seg['start']) * VIDEO_FPS)))`).
`VIDEO_FPS = 24`; Python `int()` truncates toward zero. -/

/-- Python `int()` on a rational: truncation toward zero. -/
def pyInt (q : ℚ) : ℤ :=
  if 0 ≤ q then ⌊q⌋ else ⌈q⌉

/-- `nf = max(16, min(81, int((end - start) * 24)))` for a segment with the
given start and end times. -/
def numFrames (start stop : ℚ) : ℤ :=
  max 16 (min 81 (pyInt ((stop - start) * 24)))

/-! ## Output retriever (`api/download.js`, lines 17–29) -/

/-- One entry of the Kaggle output listing; `fileName` may be absent
(JS `undefined`/`null`), which the matcher treats as falsy. -/
structure OutputFile where
  fileName : Option String
  url : String
  deriving DecidableEq, Repr

/-- The matcher `f => f.fileName && f.fileName.endsWith('_music_video.mp4')`. -/
def isFinalArtifact (f : OutputFile) : Bool :=
  match f.fileName with
  | some n => n.endsWith "_music_video.mp4"
  | none => false

/-- Result of the download handler: the 404 "not ready" response carrying
`files.map(f => f.fileName)`, or the proxied file. -/
inductive DownloadResult where
  | notReady (visible : List (Option String))
  | proxy (fileName : String) (url : String)
  deriving DecidableEq, Repr

/-- `fetchOutput` — the deterministic core of `api/download.js` lines 22–38:
find the first `*_music_video.mp4` in the listing; if none, answer 404 with
the visible file names; otherwise proxy the matched file. -/
def fetchOutput (files : List OutputFile) : DownloadResult :=
  match files.find? isFinalArtifact with
  | none => .notReady (files.map (·.fileName))
  | some f => .proxy (f.fileName.getD "") f.url

/-! ## Segmentation engine (`buildKernelSource`, kernel lines 191–209)

```python
video_segments = []
current_start = 0.0; current_text = []
for seg in segments:
    if seg['end'] - current_start >= CLIP_DURATION and current_text:
        mask = (rms_times >= current_start) & (rms_times < seg['start'])
        energy = float(np.mean(rms[mask])) if mask.any() else 0.5
        video_segments.append({'start': current_start, 'end': seg['start'],
            'lyrics': ' '.join(current_text), 'energy': energy,
            'beat_count': sum(1 for b in beat_times if current_start <= b < seg['start'])})
        current_start = seg['start']; current_text = []
    current_text.append(seg['text'].strip())
if current_text:
    end = segments[-1]['end'] if segments else 0
    ... closed-interval variant ...
```
The energy curve (`rms` sampled at `rms_times`) is modelled as a list of
(time, amplitude) pairs. -/

/-- A transcript span `{start, end, text}` (Whisper segment). `end` is a Lean
keyword, so the field is named `stop`. -/
structure Span where
  start : ℚ
  stop : ℚ
  text : String
  deriving DecidableEq, Repr

/-- An emitted video segment. -/
structure Segment where
  start : ℚ
  stop : ℚ
  lyrics : String
  energy : ℚ
  beat_count : ℕ
  deriving DecidableEq, Repr

/-- Mean of the energy samples whose timestamp lies in `[a, b)`; `0.5` when no
sample falls inside (the `mask.any()` fallback). -/
def segEnergyHO (rms : List (ℚ × ℚ)) (a b : ℚ) : ℚ :=
  let vals := (rms.filter fun p => decide (a ≤ p.1 ∧ p.1 < b)).map Prod.snd
  if vals.isEmpty then 1/2 else vals.sum / vals.length

/-- Mean of the energy samples whose timestamp lies in the closed `[a, b]`
(the final-segment variant); `0.5` when no sample falls inside. -/
def segEnergyC (rms : List (ℚ × ℚ)) (a b : ℚ) : ℚ :=
  let vals := (rms.filter fun p => decide (a ≤ p.1 ∧ p.1 ≤ b)).map Prod.snd
  if vals.isEmpty then 1/2 else vals.sum / vals.length

/-- `sum(1 for b in beat_times if a <= b < c)`. -/
def beatCountHO (beats : List ℚ) (a c : ℚ) : ℕ :=
  (beats.filter fun b => decide (a ≤ b ∧ b < c)).length

/-- `sum(1 for b in beat_times if a <= b <= c)` (final segment). -/
def beatCountC (beats : List ℚ) (a c : ℚ) : ℕ :=
  (beats.filter fun b => decide (a ≤ b ∧ b ≤ c)).length

/-- `' '.join(current_text)`. -/
def joinTexts (ts : List String) : String :=
  String.intercalate " " ts

/-- The loop state: `current_start`, `current_text`, `video_segments`. -/
structure SegState where
  current_start : ℚ
  current_text : List String
  video_segments : List Segment
  deriving Repr

/-- One iteration of the segmentation loop for transcript span `seg`. -/
def segStep (clipDuration : ℚ) (beats : List ℚ) (rms : List (ℚ × ℚ))
    (st : SegState) (seg : Span) : SegState :=
  let st' :=
    if clipDuration ≤ seg.stop - st.current_start ∧ st.current_text ≠ [] then
      { current_start := seg.start
        current_text := []
        video_segments := st.video_segments ++
          [{ start := st.current_start
             stop := seg.start
             lyrics := joinTexts st.current_text
             energy := segEnergyHO rms st.current_start seg.start
             beat_count := beatCountHO beats st.current_start seg.start }] }
    else st
  { st' with current_text := st'.current_text ++ [seg.text.trim] }

/-- The segmentation loop: fold `segStep` over the spans from the initial
state `current_start = 0.0`, `current_text = []`, `video_segments = []`. -/
def segLoop (clipDuration : ℚ) (beats : List ℚ) (rms : List (ℚ × ℚ))
    (spans : List Span) : SegState :=
  spans.foldl (segStep clipDuration beats rms) ⟨0, [], []⟩

/-- `end = segments[-1]['end'] if segments else 0`. -/
def lastStop (spans : List Span) : ℚ :=
  match spans.getLast? with
  | some s => s.stop
  | none => 0

/-- The full segmentation pass: run the loop, then emit the trailing segment
(closed interval up to the last span's end) when `current_text` is
non-empty. -/
def segmentSpans (clipDuration : ℚ) (beats : List ℚ) (rms : List (ℚ × ℚ))
    (spans : List Span) : List Segment :=
  if (segLoop clipDuration beats rms spans).current_text ≠ [] then
    (segLoop clipDuration beats rms spans).video_segments ++
      [{ start := (segLoop clipDuration beats rms spans).current_start
         stop := lastStop spans
         lyrics := joinTexts (segLoop clipDuration beats rms spans).current_text
         energy := segEnergyC rms
           (segLoop clipDuration beats rms spans).current_start (lastStop spans)
         beat_count := beatCountC beats
           (segLoop clipDuration beats rms spans).current_start (lastStop spans) }]
  else (segLoop clipDuration beats rms spans).video_segments

/-- `Chained a segs b`: `segs` is a gap-free chain of well-ordered intervals
from `a` to `b` — each segment starts where the previous one (or `a`) ends,
each has `start ≤ stop`, and the last one ends at `b`. -/
inductive Chained : ℚ → List Segment → ℚ → Prop where
  | nil (a : ℚ) : Chained a [] a
  | cons (a b : ℚ) (sg : Segment) (rest : List Segment) :
      sg.start = a → sg.start ≤ sg.stop → Chained sg.stop rest b →
      Chained a (sg :: rest) b

/-! ## Prompt-chaining engine (`buildKernelSource`, kernel lines 211–226)

```python
MOOD = {'high': ..., 'mid': ..., 'low': ...}
ANCHORS = [...five location descriptors...]
random.seed(42)   # the random module is seeded with the fixed seed 42
anchor = random.choice(ANCHORS)
interval = max(3, len(video_segments) // len(ANCHORS))
al = [s['energy'] for s in video_segments]; emin, emax = min(al), max(al)
prompts = []
for i, seg in enumerate(video_segments):
    if i > 0 and i % interval == 0:
        anchor = random.choice([a for a in ANCHORS if a != anchor] or ANCHORS)
    ne = (seg['energy'] - emin) / (emax - emin + 1e-9)
    mood = 'high' if ne > .66 else 'mid' if ne > .33 else 'low'
    prompts.append({'i': i, 'mood': mood, 'prompt': f"..."})
```

The seeded Mersenne-Twister stream behind `random.choice` is modelled by an
abstract draw sequence `rng : ℕ → ℕ`: the k-th call of `random.choice(seq)`
returns `seq[rng k % len(seq)]`.  `min`/`max` of an empty Python list raise
`ValueError`, modelled by `Option`.  Each prompt dict is paired with the
anchor current at its creation (the loop variable `anchor`), so that anchor
sequences are expressible; the emitted prompt list is the second projection. -/

/-- The fixed five-anchor palette. -/
def ANCHORS : List String :=
  ["golden wheat fields at sunset", "downtown city streets at night",
   "coastal cliffs with crashing waves", "mountain forest trail in mist",
   "open desert highway at dusk"]

/-- The `MOOD` dictionary (total on the three keys the loop produces). -/
def MOOD (m : String) : String :=
  if m = "high" then "dramatic wide shot, bold colors, dynamic movement"
  else if m = "mid" then "medium shot, warm tones, gentle motion"
  else "intimate close-up, soft bokeh, slow motion"

/-- Python `min` over a list; `ValueError` on the empty list. -/
def pyMin : List ℚ → Option ℚ
  | [] => none
  | x :: xs => some (xs.foldl min x)

/-- Python `max` over a list; `ValueError` on the empty list. -/
def pyMax : List ℚ → Option ℚ
  | [] => none
  | x :: xs => some (xs.foldl max x)

/-- The `1e-9` guard term, as an exact rational. -/
def epsilon : ℚ := 1 / 1000000000

/-- `ne = (energy - emin) / (emax - emin + 1e-9)`. -/
def normEnergy (emin emax e : ℚ) : ℚ :=
  (e - emin) / (emax - emin + epsilon)

/-- `'high' if ne > .66 else 'mid' if ne > .33 else 'low'`. -/
def moodOf (x : ℚ) : String :=
  if 66/100 < x then "high" else if 33/100 < x then "mid" else "low"

/-- `f"{anchor}, {MOOD[mood]}, {VISUAL_STYLE}. Inspired by: {lyrics[:80]}. No text, no logos."` -/
def promptText (anchor mood style lyrics : String) : String :=
  anchor ++ ", " ++ MOOD mood ++ ", " ++ style ++ ". Inspired by: " ++
    lyrics.take 80 ++ ". No text, no logos."

/-- `[a for a in ANCHORS if a != anchor] or ANCHORS` — the `or ANCHORS`
fallback fires only if the filtered list is empty. -/
def switchCands (anchor : String) : List String :=
  if (ANCHORS.filter fun a => decide (a ≠ anchor)).isEmpty then ANCHORS
  else ANCHORS.filter fun a => decide (a ≠ anchor)

/-- `random.choice([a for a in ANCHORS if a != anchor] or ANCHORS)`, the draw
being the k-th of the seeded stream. -/
def switchAnchor (rng : ℕ → ℕ) (k : ℕ) (anchor : String) : String :=
  (switchCands anchor).getD (rng k % (switchCands anchor).length) ""

/-- The anchor update at loop index `i` (`k` = next unread PRNG draw):
switch only when `i > 0 and i % interval == 0`. -/
def anchorAt (rng : ℕ → ℕ) (interval : ℕ) (i k : ℕ) (anchor : String) :
    String × ℕ :=
  if 0 < i ∧ i % interval = 0 then (switchAnchor rng k anchor, k + 1)
  else (anchor, k)

/-- One prompt dict `{'i': i, 'mood': mood, 'prompt': text}`. -/
structure PromptItem where
  i : ℕ
  mood : String
  prompt : String
  deriving DecidableEq, Repr

/-- The prompt loop: walks the segments carrying `(i, k, anchor)` and pairs
each emitted prompt with the anchor current at its creation. -/
def promptLoop (rng : ℕ → ℕ) (style : String) (emin emax : ℚ) (interval : ℕ) :
    List Segment → ℕ → ℕ → String → List (String × PromptItem)
  | [], _, _, _ => []
  | seg :: rest, i, k, anchor =>
    let ak := anchorAt rng interval i k anchor
    let mood := moodOf (normEnergy emin emax seg.energy)
    (ak.1, ⟨i, mood, promptText ak.1 mood style seg.lyrics⟩) ::
      promptLoop rng style emin emax interval rest (i + 1) ak.2 ak.1

/-- `interval = max(3, len(video_segments) // len(ANCHORS))`. -/
def promptInterval (segs : List Segment) : ℕ :=
  max 3 (segs.length / ANCHORS.length)

/-- The whole prompt stage: initial anchor = draw 0 over the palette, then
the loop from `i = 0` with draw counter `1`.  `none` models the `ValueError`
raised by `min(al)` / `max(al)` when there are no segments. -/
def promptChain (rng : ℕ → ℕ) (style : String) (segs : List Segment) :
    Option (List (String × PromptItem)) :=
  match pyMin (segs.map (·.energy)), pyMax (segs.map (·.energy)) with
  | some emin, some emax =>
    some (promptLoop rng style emin emax (promptInterval segs) segs 0 1
      (ANCHORS.getD (rng 0 % ANCHORS.length) ""))
  | _, _ => none

end MVG

namespace MVG

/-! ## Lemmas about the segmentation chain -/

/-- Appending a segment that starts where the chain ends extends the chain. -/
lemma Chained.append {a b : ℚ} {l : List Segment} (sg : Segment)
    (h : Chained a l b) :
    sg.start = b → sg.start ≤ sg.stop → Chained a (l ++ [sg]) sg.stop := by
  induction h with
  | nil c =>
    intro h1 h2
    exact .cons _ _ _ _ h1 h2 (.nil _)
  | cons a' b' sg' rest e1 e2 hrest ih =>
    intro h1 h2
    exact .cons _ _ _ _ e1 e2 (ih h1 h2)

/-- A chain from `a` to `b` covers every point of `[a, b)`: some segment's
half-open interval contains it. -/
lemma Chained.cover {a b : ℚ} {l : List Segment} (h : Chained a l b) :
    ∀ x : ℚ, a ≤ x → x < b → ∃ sg ∈ l, sg.start ≤ x ∧ x < sg.stop := by
  induction h with
  | nil c =>
    intro x h1 h2
    exact absurd (h1.trans_lt h2) (lt_irrefl c)
  | cons a' b' sg rest e1 e2 hrest ih =>
    intro x h1 h2
    by_cases hx : x < sg.stop
    · exact ⟨sg, List.mem_cons_self _ _, e1 ▸ h1, hx⟩
    · obtain ⟨t, ht, h3, h4⟩ := ih x (not_lt.mp hx) h2
      exact ⟨t, List.mem_cons_of_mem _ ht, h3, h4⟩

/-- Each loop iteration appends the span's (stripped) text, so `current_text`
is never empty after a step. -/
lemma segStep_text_ne (D : ℚ) (beats : List ℚ) (rms : List (ℚ × ℚ))
    (st : SegState) (seg : Span) :
    (segStep D beats rms st seg).current_text ≠ [] := by
  unfold segStep
  by_cases hc : D ≤ seg.stop - st.current_start ∧ st.current_text ≠ [] <;>
    simp [hc]

/-- After processing at least one span, `current_text` is non-empty. -/
lemma segLoop_text_ne (D : ℚ) (beats : List ℚ) (rms : List (ℚ × ℚ)) :
    ∀ (spans : List Span) (st : SegState), spans ≠ [] →
      (spans.foldl (segStep D beats rms) st).current_text ≠ [] := by
  intro spans
  induction spans with
  | nil =>
    intro st h
    exact absurd rfl h
  | cons s rest ih =>
    intro st _
    rw [List.foldl_cons]
    rcases rest with _ | ⟨r, rs⟩
    · simpa using segStep_text_ne D beats rms st s
    · exact ih _ (by simp)

/-- Loop invariant: the emitted segments chain from `0` up to `current_start`,
and after the loop `current_start` is at most the last span's end. -/
lemma segLoop_inv (D : ℚ) (beats : List ℚ) (rms : List (ℚ × ℚ)) :
    ∀ (spans : List Span) (st : SegState),
      Chained 0 st.video_segments st.current_start →
      List.Pairwise (fun u v => u.stop ≤ v.start) spans →
      (∀ s ∈ spans, s.start ≤ s.stop) →
      (∀ s ∈ spans, st.current_start ≤ s.start) →
      Chained 0 (spans.foldl (segStep D beats rms) st).video_segments
        (spans.foldl (segStep D beats rms) st).current_start ∧
      ∀ ls, spans.getLast? = some ls →
        (spans.foldl (segStep D beats rms) st).current_start ≤ ls.stop := by
  intro spans
  induction spans with
  | nil =>
    intro st hch _ _ _
    refine ⟨hch, ?_⟩
    intro ls h
    simp at h
  | cons s rest ih =>
    intro st hch hpw hwf hle
    have hss : s.start ≤ s.stop := hwf s (List.mem_cons_self _ _)
    have hcs : st.current_start ≤ s.start := hle s (List.mem_cons_self _ _)
    rw [List.foldl_cons]
    have hcases : ((segStep D beats rms st s).current_start = st.current_start ∨
        (segStep D beats rms st s).current_start = s.start) ∧
        Chained 0 (segStep D beats rms st s).video_segments
          (segStep D beats rms st s).current_start := by
      by_cases hc : D ≤ s.stop - st.current_start ∧ st.current_text ≠ []
      · refine ⟨Or.inr ?_, ?_⟩
        · simp [segStep, hc]
        · have happ := Chained.append
            { start := st.current_start, stop := s.start,
              lyrics := joinTexts st.current_text,
              energy := segEnergyHO rms st.current_start s.start,
              beat_count := beatCountHO beats st.current_start s.start }
            hch rfl hcs
          simpa [segStep, hc] using happ
      · refine ⟨Or.inl ?_, ?_⟩
        · simp [segStep, hc]
        · simpa [segStep, hc] using hch
    have hnext : ∀ t ∈ rest, (segStep D beats rms st s).current_start ≤ t.start := by
      intro t ht
      rcases hcases.1 with he | he
      · rw [he]
        exact hle t (List.mem_cons_of_mem _ ht)
      · rw [he]
        exact hss.trans ((List.pairwise_cons.mp hpw).1 t ht)
    have hres := ih (segStep D beats rms st s) hcases.2
      (List.pairwise_cons.mp hpw).2
      (fun t ht => hwf t (List.mem_cons_of_mem _ ht)) hnext
    refine ⟨hres.1, ?_⟩
    intro ls hls
    rcases rest with _ | ⟨r, rs⟩
    · simp only [List.getLast?_singleton, Option.some.injEq] at hls
      subst hls
      rw [List.foldl_nil]
      rcases hcases.1 with he | he
      · rw [he]
        exact hcs.trans hss
      · rw [he]
        exact hss
    · rw [List.getLast?_cons_cons] at hls
      exact hres.2 ls hls

/-- All segments emitted by the loop carry a `beat_count` equal to the number
of beats in their own half-open interval. -/
lemma segLoop_beats (D : ℚ) (beats : List ℚ) (rms : List (ℚ × ℚ)) :
    ∀ (spans : List Span) (st : SegState),
      (∀ sg ∈ st.video_segments, sg.beat_count = beatCountHO beats sg.start sg.stop) →
      ∀ sg ∈ (spans.foldl (segStep D beats rms) st).video_segments,
        sg.beat_count = beatCountHO beats sg.start sg.stop := by
  intro spans
  induction spans with
  | nil =>
    intro st h
    simpa using h
  | cons s rest ih =>
    intro st h
    rw [List.foldl_cons]
    refine ih _ ?_
    by_cases hc : D ≤ s.stop - st.current_start ∧ st.current_text ≠ []
    · intro sg hsg
      simp only [segStep, if_pos hc, List.mem_append, List.mem_singleton] at hsg
      rcases hsg with hsg | hsg
      · exact h sg hsg
      · subst hsg
        rfl
    · intro sg hsg
      simp only [segStep, if_neg hc] at hsg
      exact h sg hsg

/-! ## Theorems: segmentation -/

/-- C1: for a non-empty span list with monotonically increasing,
non-overlapping spans (and non-negative times), the emitted segments form a
non-empty, gap-free, non-overlapping chain of intervals starting at `0` and
ending at the last span's end (`Chained 0 _ ls.stop`: each segment's end is
the next segment's start), and every point from the first span's start up to
the last span's end lies in some segment — so the segments cover
`[firstSpanStart, lastSpanEnd]`, the endpoint being the last segment's
(closed) end. -/
theorem segmentSpans_chained (D : ℚ) (beats : List ℚ) (rms : List (ℚ × ℚ))
    (spans : List Span) (ls : Span)
    (hlast : spans.getLast? = some ls)
    (hpw : List.Pairwise (fun u v => u.stop ≤ v.start) spans)
    (hwf : ∀ s ∈ spans, s.start ≤ s.stop)
    (h0 : ∀ s ∈ spans, 0 ≤ s.start) :
    segmentSpans D beats rms spans ≠ [] ∧
    Chained 0 (segmentSpans D beats rms spans) ls.stop ∧
    ∀ x : ℚ, (∃ f ∈ spans, f.start ≤ x) → x < ls.stop →
      ∃ sg ∈ segmentSpans D beats rms spans, sg.start ≤ x ∧ x < sg.stop := by
  have hne : spans ≠ [] := by
    intro h
    rw [h] at hlast
    simp at hlast
  have hinv := segLoop_inv D beats rms spans ⟨0, [], []⟩ (Chained.nil 0) hpw hwf
    (fun s hs => h0 s hs)
  have htext : (segLoop D beats rms spans).current_text ≠ [] :=
    segLoop_text_ne D beats rms spans _ hne
  have hbound : (segLoop D beats rms spans).current_start ≤ ls.stop :=
    hinv.2 ls hlast
  have hls : lastStop spans = ls.stop := by
    unfold lastStop
    rw [hlast]
  have hres : segmentSpans D beats rms spans =
      (segLoop D beats rms spans).video_segments ++
        [{ start := (segLoop D beats rms spans).current_start
           stop := lastStop spans
           lyrics := joinTexts (segLoop D beats rms spans).current_text
           energy := segEnergyC rms (segLoop D beats rms spans).current_start
             (lastStop spans)
           beat_count := beatCountC beats (segLoop D beats rms spans).current_start
             (lastStop spans) }] := by
    unfold segmentSpans
    rw [if_pos htext]
  rw [hls] at hres
  have hchain : Chained 0 (segmentSpans D beats rms spans) ls.stop := by
    rw [hres]
    exact Chained.append
      { start := (segLoop D beats rms spans).current_start
        stop := ls.stop
        lyrics := joinTexts (segLoop D beats rms spans).current_text
        energy := segEnergyC rms (segLoop D beats rms spans).current_start
          ls.stop
        beat_count := beatCountC beats (segLoop D beats rms spans).current_start
          ls.stop }
      hinv.1 rfl hbound
  refine ⟨?_, hchain, ?_⟩
  · rw [hres]
    simp
  · intro x hx hxb
    obtain ⟨f, hf, hfx⟩ := hx
    exact hchain.cover x ((h0 f hf).trans hfx) hxb

/-- Witness for `segmentSpans_chained`: three spans `[0,3], [3,6], [6,9]` with
clip duration `5`; the hypotheses hold by computation and the theorem applies. -/
theorem segmentSpans_chained_witness :
    segmentSpans 5 [] [] [⟨0, 3, "a"⟩, ⟨3, 6, "b"⟩, ⟨6, 9, "c"⟩] ≠ [] ∧
    Chained 0 (segmentSpans 5 [] [] [⟨0, 3, "a"⟩, ⟨3, 6, "b"⟩, ⟨6, 9, "c"⟩])
      (Span.stop ⟨6, 9, "c"⟩) ∧
    ∀ x : ℚ, (∃ f ∈ [(⟨0, 3, "a"⟩ : Span), ⟨3, 6, "b"⟩, ⟨6, 9, "c"⟩], f.start ≤ x) →
      x < Span.stop ⟨6, 9, "c"⟩ →
      ∃ sg ∈ segmentSpans 5 [] [] [⟨0, 3, "a"⟩, ⟨3, 6, "b"⟩, ⟨6, 9, "c"⟩],
        sg.start ≤ x ∧ x < sg.stop :=
  segmentSpans_chained 5 [] [] [⟨0, 3, "a"⟩, ⟨3, 6, "b"⟩, ⟨6, 9, "c"⟩] ⟨6, 9, "c"⟩
    (by decide) (by decide) (by decide) (by decide)

/-- C5: for any non-empty span list, the emitted segment list splits as
`init ++ [fin]`; every interior segment's `beat_count` is the number of beats
in its half-open interval `[start, stop)`, and the final segment's
`beat_count` is the number of beats in its closed interval `[start, stop]`. -/
theorem segmentSpans_beatCount (D : ℚ) (beats : List ℚ) (rms : List (ℚ × ℚ))
    (spans : List Span) (hne : spans ≠ []) :
    ∃ init fin, segmentSpans D beats rms spans = init ++ [fin] ∧
      (∀ sg ∈ init,
        sg.beat_count = beats.countP fun b => decide (sg.start ≤ b ∧ b < sg.stop)) ∧
      fin.beat_count = beats.countP fun b => decide (fin.start ≤ b ∧ b ≤ fin.stop) := by
  have htext : (segLoop D beats rms spans).current_text ≠ [] :=
    segLoop_text_ne D beats rms spans _ hne
  have hloop := segLoop_beats D beats rms spans ⟨0, [], []⟩ (by simp)
  refine ⟨(segLoop D beats rms spans).video_segments,
    { start := (segLoop D beats rms spans).current_start
      stop := lastStop spans
      lyrics := joinTexts (segLoop D beats rms spans).current_text
      energy := segEnergyC rms (segLoop D beats rms spans).current_start
        (lastStop spans)
      beat_count := beatCountC beats (segLoop D beats rms spans).current_start
        (lastStop spans) }, ?_, ?_, ?_⟩
  · unfold segmentSpans
    rw [if_pos htext]
  · intro sg hsg
    rw [hloop sg hsg]
    unfold beatCountHO
    rw [List.countP_eq_length_filter]
  · unfold beatCountC
    rw [List.countP_eq_length_filter]

/-- Witness for `segmentSpans_beatCount` at a concrete non-empty input. -/
theorem segmentSpans_beatCount_witness :
    ∃ init fin,
      segmentSpans 5 [0, 1, 4, 9] [] [⟨0, 3, "a"⟩, ⟨3, 6, "b"⟩, ⟨6, 9, "c"⟩] =
        init ++ [fin] ∧
      (∀ sg ∈ init,
        sg.beat_count =
          ([0, 1, 4, 9] : List ℚ).countP fun b => decide (sg.start ≤ b ∧ b < sg.stop)) ∧
      fin.beat_count =
        ([0, 1, 4, 9] : List ℚ).countP fun b => decide (fin.start ≤ b ∧ b ≤ fin.stop) :=
  segmentSpans_beatCount 5 [0, 1, 4, 9] [] [⟨0, 3, "a"⟩, ⟨3, 6, "b"⟩, ⟨6, 9, "c"⟩]
    (by decide)

/-! ## Lemmas about the prompt chain -/

lemma foldl_min_le_init (l : List ℚ) (a : ℚ) : l.foldl min a ≤ a := by
  induction l generalizing a with
  | nil => exact le_refl a
  | cons x xs ih => exact (ih (min a x)).trans (min_le_left a x)

lemma foldl_min_le (l : List ℚ) (a : ℚ) : ∀ x ∈ l, l.foldl min a ≤ x := by
  induction l generalizing a with
  | nil =>
    intro x hx
    simp at hx
  | cons y ys ih =>
    intro x hx
    rcases List.mem_cons.mp hx with h | h
    · subst h
      exact (foldl_min_le_init ys (min a x)).trans (min_le_right a x)
    · exact ih (min a y) x h

lemma foldl_max_init_le (l : List ℚ) (a : ℚ) : a ≤ l.foldl max a := by
  induction l generalizing a with
  | nil => exact le_refl a
  | cons x xs ih => exact (le_max_left a x).trans (ih (max a x))

lemma foldl_le_max (l : List ℚ) (a : ℚ) : ∀ x ∈ l, x ≤ l.foldl max a := by
  induction l generalizing a with
  | nil =>
    intro x hx
    simp at hx
  | cons y ys ih =>
    intro x hx
    rcases List.mem_cons.mp hx with h | h
    · subst h
      exact (le_max_right a x).trans (foldl_max_init_le ys (max a x))
    · exact ih (max a y) x h

/-- The value Python's `min` returns bounds every list element from below. -/
lemma pyMin_le {l : List ℚ} {m : ℚ} (h : pyMin l = some m) : ∀ x ∈ l, m ≤ x := by
  match l with
  | x :: xs =>
    simp only [pyMin, Option.some.injEq] at h
    subst h
    intro y hy
    rcases List.mem_cons.mp hy with h | h
    · subst h
      exact foldl_min_le_init xs y
    · exact foldl_min_le xs x y h

/-- The value Python's `max` returns bounds every list element from above. -/
lemma le_pyMax {l : List ℚ} {M : ℚ} (h : pyMax l = some M) : ∀ x ∈ l, x ≤ M := by
  match l with
  | x :: xs =>
    simp only [pyMax, Option.some.injEq] at h
    subst h
    intro y hy
    rcases List.mem_cons.mp hy with h | h
    · subst h
      exact foldl_max_init_le xs y
    · exact foldl_le_max xs x y h

/-- For a palette anchor, the filtered candidate list is non-empty, contained
in the palette, and excludes the current anchor. -/
lemma switchCands_spec (anchor : String) (h : anchor ∈ ANCHORS) :
    switchCands anchor ≠ [] ∧
    ∀ x ∈ switchCands anchor, x ∈ ANCHORS ∧ x ≠ anchor := by
  have hfil : (ANCHORS.filter fun a => decide (a ≠ anchor)) ≠ [] := by
    fin_cases h <;> decide
  have hempty : (ANCHORS.filter fun a => decide (a ≠ anchor)).isEmpty = false := by
    rcases he : ANCHORS.filter fun a => decide (a ≠ anchor) with _ | ⟨x, xs⟩
    · exact absurd he hfil
    · rfl
  constructor
  · unfold switchCands
    simp only [hempty, Bool.false_eq_true, if_false]
    exact hfil
  · intro x hx
    unfold switchCands at hx
    simp only [hempty, Bool.false_eq_true, if_false] at hx
    simp only [List.mem_filter, decide_eq_true_eq] at hx
    exact hx

/-- Every switch picks a palette anchor different from the current one. -/
lemma switchAnchor_spec (rng : ℕ → ℕ) (k : ℕ) (anchor : String)
    (h : anchor ∈ ANCHORS) :
    switchAnchor rng k anchor ∈ ANCHORS ∧ switchAnchor rng k anchor ≠ anchor := by
  obtain ⟨hne, hsub⟩ := switchCands_spec anchor h
  have hlen : 0 < (switchCands anchor).length := List.length_pos.mpr hne
  have hidx : rng k % (switchCands anchor).length < (switchCands anchor).length :=
    Nat.mod_lt _ hlen
  have hmem : switchAnchor rng k anchor ∈ switchCands anchor := by
    unfold switchAnchor
    rw [List.getD_eq_getElem _ _ hidx]
    exact List.getElem_mem _
  exact hsub _ hmem

/-- The anchor update keeps the anchor inside the palette. -/
lemma anchorAt_mem (rng : ℕ → ℕ) (interval i k : ℕ) (anchor : String)
    (h : anchor ∈ ANCHORS) :
    (anchorAt rng interval i k anchor).1 ∈ ANCHORS := by
  unfold anchorAt
  split
  · exact (switchAnchor_spec rng k anchor h).1
  · exact h

/-- The initial `random.choice(ANCHORS)` lands in the palette. -/
lemma initialAnchor_mem (rng : ℕ → ℕ) :
    ANCHORS.getD (rng 0 % ANCHORS.length) "" ∈ ANCHORS := by
  have h : rng 0 % ANCHORS.length < ANCHORS.length := Nat.mod_lt _ (by decide)
  rw [List.getD_eq_getElem _ _ h]
  exact List.getElem_mem _

/-- The prompt loop emits one prompt per segment. -/
lemma promptLoop_length (rng : ℕ → ℕ) (style : String) (emin emax : ℚ)
    (interval : ℕ) :
    ∀ (segs : List Segment) (i k : ℕ) (anchor : String),
      (promptLoop rng style emin emax interval segs i k anchor).length =
        segs.length := by
  intro segs
  induction segs with
  | nil =>
    intro i k anchor
    rfl
  | cons s rest ih =>
    intro i k anchor
    simp [promptLoop, ih]

/-- Every anchor paired with an emitted prompt is a palette anchor. -/
lemma promptLoop_anchors_mem (rng : ℕ → ℕ) (style : String) (emin emax : ℚ)
    (interval : ℕ) :
    ∀ (segs : List Segment) (i k : ℕ) (anchor : String), anchor ∈ ANCHORS →
      ∀ p ∈ promptLoop rng style emin emax interval segs i k anchor,
        p.1 ∈ ANCHORS := by
  intro segs
  induction segs with
  | nil =>
    intro i k anchor _ p hp
    simp [promptLoop] at hp
  | cons s rest ih =>
    intro i k anchor h p hp
    rcases List.mem_cons.mp hp with hp | hp
    · subst hp
      exact anchorAt_mem rng interval i k anchor h
    · exact ih (i + 1) _ _ (anchorAt_mem rng interval i k anchor h) p hp

/-- Adjacent anchors in the prompt loop: starting at loop index `i` with a
palette anchor, the anchor paired with output position `j + 1` (loop index
`i + j + 1`) differs from its predecessor when `i + j + 1` is a multiple of
the interval, and equals it otherwise. -/
lemma promptLoop_adjacent (rng : ℕ → ℕ) (style : String) (emin emax : ℚ)
    (interval : ℕ) :
    ∀ (segs : List Segment) (i k : ℕ) (anchor : String), anchor ∈ ANCHORS →
      ∀ j : ℕ, j + 1 < segs.length →
        (((i + j + 1) % interval = 0 →
          ((promptLoop rng style emin emax interval segs i k anchor).getD (j + 1)
              ("", ⟨0, "", ""⟩)).1 ≠
            ((promptLoop rng style emin emax interval segs i k anchor).getD j
              ("", ⟨0, "", ""⟩)).1) ∧
         ((i + j + 1) % interval ≠ 0 →
          ((promptLoop rng style emin emax interval segs i k anchor).getD (j + 1)
              ("", ⟨0, "", ""⟩)).1 =
            ((promptLoop rng style emin emax interval segs i k anchor).getD j
              ("", ⟨0, "", ""⟩)).1)) := by
  intro segs
  induction segs with
  | nil =>
    intro i k anchor _ j hj
    simp at hj
  | cons s rest ih =>
    intro i k anchor hanc j hj
    have hmem1 : (anchorAt rng interval i k anchor).1 ∈ ANCHORS :=
      anchorAt_mem rng interval i k anchor hanc
    match j with
    | 0 =>
      match rest, hj with
      | r :: rs, _ =>
        show
          ((i + 0 + 1) % interval = 0 →
            ((anchorAt rng interval (i + 1) (anchorAt rng interval i k anchor).2
              (anchorAt rng interval i k anchor).1).1 ≠
              (anchorAt rng interval i k anchor).1)) ∧
          ((i + 0 + 1) % interval ≠ 0 →
            ((anchorAt rng interval (i + 1) (anchorAt rng interval i k anchor).2
              (anchorAt rng interval i k anchor).1).1 =
              (anchorAt rng interval i k anchor).1))
        constructor
        · intro hmod
          rw [Nat.add_zero] at hmod
          unfold anchorAt
          rw [if_pos ⟨Nat.succ_pos i, hmod⟩]
          exact (switchAnchor_spec rng _ _ hmem1).2
        · intro hmod
          rw [Nat.add_zero] at hmod
          unfold anchorAt
          rw [if_neg fun hc => hmod hc.2]
    | j' + 1 =>
      have hj' : j' + 1 < rest.length := by
        simpa using Nat.lt_of_succ_lt_succ hj
      have := ih (i + 1) (anchorAt rng interval i k anchor).2
        (anchorAt rng interval i k anchor).1 hmem1 j' hj'
      have harith : i + 1 + j' + 1 = i + (j' + 1) + 1 := by omega
      rw [harith] at this
      exact this

/-! ## Theorems: status mapping -/

/-- C4: the claim says both `queued` and any unknown remote state yield
`uiStage="analysis"`, but the `default:` branch of `mapStatus` yields
`uiStage="queued"` — e.g. for the unknown remote state `"preparing"`. -/
theorem mapStatus_unknown_not_analysis :
    (mapStatus "preparing" (outputUrlOf none)).uiStage = "queued" ∧
    (mapStatus "preparing" (outputUrlOf none)).uiStage ≠ "analysis" := by
  constructor
  · rfl
  · decide

/-- C4 (amended): `"running"` yields `uiStage="clips"`, not done, not errored;
`"complete"` yields `done=true` with the non-empty handler URL as
`downloadUrl`; `"error"` and `"cancelled"` yield `error=true` with progress 0;
`"queued"` yields `uiStage="analysis"` with progress 5; any unknown remote
state yields `uiStage="queued"` with progress 2 (both within the 2–5 range). -/
theorem mapStatus_table (s : String)
    (hs : s ≠ "queued" ∧ s ≠ "running" ∧ s ≠ "complete" ∧ s ≠ "error" ∧
      s ≠ "cancelled") :
    (mapStatus "running" (outputUrlOf none)).uiStage = "clips" ∧
    (mapStatus "running" (outputUrlOf none)).done = false ∧
    (mapStatus "running" (outputUrlOf none)).error = false ∧
    (mapStatus "complete" (outputUrlOf none)).done = true ∧
    (mapStatus "complete" (outputUrlOf none)).downloadUrl = some kernelOutputUrl ∧
    kernelOutputUrl ≠ "" ∧
    (mapStatus "error" (outputUrlOf none)).error = true ∧
    (mapStatus "error" (outputUrlOf none)).progress = 0 ∧
    (mapStatus "cancelled" (outputUrlOf none)).error = true ∧
    (mapStatus "cancelled" (outputUrlOf none)).progress = 0 ∧
    (mapStatus "queued" (outputUrlOf none)).uiStage = "analysis" ∧
    (mapStatus "queued" (outputUrlOf none)).progress = 5 ∧
    (mapStatus s (outputUrlOf none)).uiStage = "queued" ∧
    (mapStatus s (outputUrlOf none)).progress = 2 := by
  obtain ⟨h1, h2, h3, h4, h5⟩ := hs
  refine ⟨rfl, rfl, rfl, by decide, rfl, by decide, by decide, rfl, by decide, rfl,
    rfl, rfl, ?_, ?_⟩ <;>
    simp [mapStatus, h1, h2, h3, h4, h5]

/-- Witness for `mapStatus_table` at the concrete unknown state `"preparing"`. -/
theorem mapStatus_table_witness :
    (mapStatus "running" (outputUrlOf none)).uiStage = "clips" ∧
    (mapStatus "running" (outputUrlOf none)).done = false ∧
    (mapStatus "running" (outputUrlOf none)).error = false ∧
    (mapStatus "complete" (outputUrlOf none)).done = true ∧
    (mapStatus "complete" (outputUrlOf none)).downloadUrl = some kernelOutputUrl ∧
    kernelOutputUrl ≠ "" ∧
    (mapStatus "error" (outputUrlOf none)).error = true ∧
    (mapStatus "error" (outputUrlOf none)).progress = 0 ∧
    (mapStatus "cancelled" (outputUrlOf none)).error = true ∧
    (mapStatus "cancelled" (outputUrlOf none)).progress = 0 ∧
    (mapStatus "queued" (outputUrlOf none)).uiStage = "analysis" ∧
    (mapStatus "queued" (outputUrlOf none)).progress = 5 ∧
    (mapStatus "preparing" (outputUrlOf none)).uiStage = "queued" ∧
    (mapStatus "preparing" (outputUrlOf none)).progress = 2 :=
  mapStatus_table "preparing" (by decide)

/-- C9: for every remote status string and output URL, the snapshot never has
`done` and `error` both true; `running` is true exactly when both are false;
and `downloadUrl` is populated only for the `"complete"` state. -/
theorem mapStatus_invariants (s : String) (u : Option String) :
    (¬((mapStatus s u).done = true ∧ (mapStatus s u).error = true)) ∧
    ((mapStatus s u).running = true ↔
      ((mapStatus s u).done = false ∧ (mapStatus s u).error = false)) ∧
    ((mapStatus s u).downloadUrl.isSome = true → s = "complete") := by
  unfold mapStatus
  split_ifs with h1 h2 h3 h4 h5 <;> simp_all

/-- Witness for `mapStatus_invariants` at a concrete state and URL. -/
theorem mapStatus_invariants_witness :
    (¬((mapStatus "running" none).done = true ∧ (mapStatus "running" none).error = true)) ∧
    ((mapStatus "running" none).running = true ↔
      ((mapStatus "running" none).done = false ∧ (mapStatus "running" none).error = false)) ∧
    ((mapStatus "running" none).downloadUrl.isSome = true → "running" = "complete") :=
  mapStatus_invariants "running" none

/-! ## Theorems: frame count -/

/-- C10: for any segment start/end times, the per-clip frame count
`max(16, min(81, int((end − start) * 24)))` lies in `[16, 81]`. -/
theorem numFrames_mem_range (start stop : ℚ) :
    16 ≤ numFrames start stop ∧ numFrames start stop ≤ 81 := by
  unfold numFrames
  constructor
  · exact le_max_left _ _
  · exact max_le (by norm_num) (min_le_left _ _)

/-! ## Theorems: output retriever -/

/-- C6: whenever no listed file name ends in `_music_video.mp4`, `fetchOutput`
returns the "not ready" response carrying exactly the visible file names —
never any other outcome. -/
theorem fetchOutput_notReady (files : List OutputFile)
    (h : ∀ f ∈ files, ∀ n, f.fileName = some n →
      n.endsWith "_music_video.mp4" = false) :
    fetchOutput files = .notReady (files.map (·.fileName)) := by
  unfold fetchOutput
  have hfind : files.find? isFinalArtifact = none := by
    rw [List.find?_eq_none]
    intro f hf
    unfold isFinalArtifact
    match hn : f.fileName with
    | some n => simpa using h f hf n hn
    | none => simp
  rw [hfind]

/-- Witness for `fetchOutput_notReady` on a concrete listing holding
`progress.json` and an entry with no file name. -/
theorem fetchOutput_notReady_witness :
    fetchOutput [⟨some "progress.json", "u1"⟩, ⟨none, "u2"⟩] =
      .notReady [some "progress.json", none] :=
  fetchOutput_notReady [⟨some "progress.json", "u1"⟩, ⟨none, "u2"⟩] (by
    intro f hf n hn
    simp only [List.mem_cons, List.mem_singleton] at hf
    rcases hf with hf | hf | hf
    · subst hf
      simp only [Option.some.injEq] at hn
      subst hn
      decide
    · subst hf
      simp at hn
    · simp at hf)

/-! ## Theorems: prompt chaining -/

/-- C7: zero transcript spans do yield zero segments, but the prompt stage
then crashes — `min(al)` with `al == []` raises `ValueError` (here `none`) —
so the claim's "does not crash" is violated by the code. -/
theorem segmentSpans_nil_promptChain_none (D : ℚ) (beats : List ℚ)
    (rms : List (ℚ × ℚ)) (rng : ℕ → ℕ) (style : String) :
    segmentSpans D beats rms [] = [] ∧
    promptChain rng style (segmentSpans D beats rms []) = none := by
  constructor <;> rfl

/-- C2: with identical transcript spans, beat list, energy curve, clip
duration and style, and the same seeded draw stream, two runs of the
segmentation + prompt-chaining pipeline agree entirely — same outcome, same
anchor sequence, byte-identical prompt texts. -/
theorem promptChain_deterministic (rng₁ rng₂ : ℕ → ℕ) (style₁ style₂ : String)
    (D₁ D₂ : ℚ) (beats₁ beats₂ : List ℚ) (rms₁ rms₂ : List (ℚ × ℚ))
    (spans₁ spans₂ : List Span)
    (hr : rng₁ = rng₂) (hs : style₁ = style₂) (hD : D₁ = D₂)
    (hb : beats₁ = beats₂) (he : rms₁ = rms₂) (hsp : spans₁ = spans₂) :
    segmentSpans D₁ beats₁ rms₁ spans₁ = segmentSpans D₂ beats₂ rms₂ spans₂ ∧
    promptChain rng₁ style₁ (segmentSpans D₁ beats₁ rms₁ spans₁) =
      promptChain rng₂ style₂ (segmentSpans D₂ beats₂ rms₂ spans₂) ∧
    (promptChain rng₁ style₁ (segmentSpans D₁ beats₁ rms₁ spans₁)).map
        (List.map Prod.fst) =
      (promptChain rng₂ style₂ (segmentSpans D₂ beats₂ rms₂ spans₂)).map
        (List.map Prod.fst) ∧
    (promptChain rng₁ style₁ (segmentSpans D₁ beats₁ rms₁ spans₁)).map
        (List.map fun p => p.2.prompt) =
      (promptChain rng₂ style₂ (segmentSpans D₂ beats₂ rms₂ spans₂)).map
        (List.map fun p => p.2.prompt) := by
  subst hr hs hD hb he hsp
  exact ⟨rfl, rfl, rfl, rfl⟩

/-- Witness for `promptChain_deterministic` at a concrete input. -/
theorem promptChain_deterministic_witness :
    segmentSpans 5 [1] [(1, 1/2)] [⟨0, 3, "x"⟩] =
      segmentSpans 5 [1] [(1, 1/2)] [⟨0, 3, "x"⟩] ∧
    promptChain (fun _ => 0) "style" (segmentSpans 5 [1] [(1, 1/2)] [⟨0, 3, "x"⟩]) =
      promptChain (fun _ => 0) "style" (segmentSpans 5 [1] [(1, 1/2)] [⟨0, 3, "x"⟩]) ∧
    (promptChain (fun _ => 0) "style"
        (segmentSpans 5 [1] [(1, 1/2)] [⟨0, 3, "x"⟩])).map (List.map Prod.fst) =
      (promptChain (fun _ => 0) "style"
        (segmentSpans 5 [1] [(1, 1/2)] [⟨0, 3, "x"⟩])).map (List.map Prod.fst) ∧
    (promptChain (fun _ => 0) "style"
        (segmentSpans 5 [1] [(1, 1/2)] [⟨0, 3, "x"⟩])).map
          (List.map fun p => p.2.prompt) =
      (promptChain (fun _ => 0) "style"
        (segmentSpans 5 [1] [(1, 1/2)] [⟨0, 3, "x"⟩])).map
          (List.map fun p => p.2.prompt) :=
  promptChain_deterministic _ _ _ _ _ _ _ _ _ _ _ _ rfl rfl rfl rfl rfl rfl

/-- C3 counterexample: for two segments with energies `0` and `1`, the
maximum-energy segment normalizes to `10^9/(10^9+1)`, which is *not* exactly
`1.0` — the `ε` in the denominator keeps the maximum strictly below `1`. -/
theorem normEnergy_max_ne_one :
    pyMin (([⟨0, 1, "a", 0, 0⟩, ⟨1, 2, "b", 1, 0⟩] : List Segment).map (·.energy)) =
      some 0 ∧
    pyMax (([⟨0, 1, "a", 0, 0⟩, ⟨1, 2, "b", 1, 0⟩] : List Segment).map (·.energy)) =
      some 1 ∧
    normEnergy 0 1 1 = 1000000000 / 1000000001 ∧
    normEnergy 0 1 1 ≠ 1 := by
  refine ⟨by decide, by decide, ?_, ?_⟩ <;> norm_num [normEnergy, epsilon]

/-- C3 (amended): each normalized energy lies in `[0, 1)` (hence in `[0,1]`);
the minimum energy normalizes to exactly `0`; the maximum energy's normalized
value bounds all others from above (it is `(emax−emin)/(emax−emin+ε) < 1`,
not exactly `1`); and when all energies are equal every normalized energy
is `0`. -/
theorem normEnergy_spec (es : List ℚ) (emin emax : ℚ)
    (hmin : pyMin es = some emin) (hmax : pyMax es = some emax) :
    (∀ e ∈ es, 0 ≤ normEnergy emin emax e ∧ normEnergy emin emax e < 1) ∧
    normEnergy emin emax emin = 0 ∧
    (∀ e ∈ es, normEnergy emin emax e ≤ normEnergy emin emax emax) ∧
    (emin = emax → ∀ e ∈ es, normEnergy emin emax e = 0) := by
  have hes : es ≠ [] := by
    intro h
    rw [h] at hmin
    simp [pyMin] at hmin
  obtain ⟨x, xs, rfl⟩ := List.exists_cons_of_ne_nil hes
  have hle := pyMin_le hmin
  have hge := le_pyMax hmax
  have hmm : emin ≤ emax :=
    (hle x (List.mem_cons_self _ _)).trans (hge x (List.mem_cons_self _ _))
  have heps : (0:ℚ) < epsilon := by norm_num [epsilon]
  have hden : 0 < emax - emin + epsilon := by linarith
  refine ⟨?_, ?_, ?_, ?_⟩
  · intro e he
    constructor
    · exact div_nonneg (sub_nonneg.mpr (hle e he)) hden.le
    · rw [normEnergy, div_lt_one hden]
      have := hge e he
      linarith
  · unfold normEnergy
    rw [sub_self, zero_div]
  · intro e he
    unfold normEnergy
    have := hge e he
    gcongr
  · intro heq e he
    have hee : e = emin := le_antisymm (heq ▸ hge e he) (hle e he)
    unfold normEnergy
    rw [hee, sub_self, zero_div]

/-- Witness for `normEnergy_spec` on the energy list `[0, 1]`. -/
theorem normEnergy_spec_witness :
    (∀ e ∈ ([0, 1] : List ℚ), 0 ≤ normEnergy 0 1 e ∧ normEnergy 0 1 e < 1) ∧
    normEnergy 0 1 0 = 0 ∧
    (∀ e ∈ ([0, 1] : List ℚ), normEnergy 0 1 e ≤ normEnergy 0 1 1) ∧
    ((0:ℚ) = 1 → ∀ e ∈ ([0, 1] : List ℚ), normEnergy 0 1 e = 0) :=
  normEnergy_spec [0, 1] 0 1 (by decide) (by decide)

/-- C8: for a non-empty segment list the prompt stage emits one prompt per
segment, each carrying a palette anchor; scanning consecutive prompts, the
anchor changes exactly at the positive multiples of
`interval = max(3, segmentCount / paletteSize)` — where it is replaced by a
palette anchor different from the current one — and is unchanged at every
other index. -/
theorem promptChain_anchor_switching (rng : ℕ → ℕ) (style : String)
    (segs : List Segment) (hne : segs ≠ []) :
    ∃ l, promptChain rng style segs = some l ∧
      l.length = segs.length ∧
      (∀ p ∈ l, p.1 ∈ ANCHORS) ∧
      ∀ j : ℕ, j + 1 < l.length →
        (((j + 1) % promptInterval segs = 0 →
            (l.getD (j + 1) ("", ⟨0, "", ""⟩)).1 ≠ (l.getD j ("", ⟨0, "", ""⟩)).1) ∧
         ((j + 1) % promptInterval segs ≠ 0 →
            (l.getD (j + 1) ("", ⟨0, "", ""⟩)).1 = (l.getD j ("", ⟨0, "", ""⟩)).1)) := by
  obtain ⟨s, ss, rfl⟩ := List.exists_cons_of_ne_nil hne
  refine ⟨_, rfl, promptLoop_length _ _ _ _ _ _ _ _ _, ?_, ?_⟩
  · exact promptLoop_anchors_mem _ _ _ _ _ _ _ _ _ (initialAnchor_mem rng)
  · intro j hj
    rw [promptLoop_length] at hj
    have := promptLoop_adjacent rng style
      ((ss.map (·.energy)).foldl min s.energy)
      ((ss.map (·.energy)).foldl max s.energy)
      (promptInterval (s :: ss)) (s :: ss)
      0 1 (ANCHORS.getD (rng 0 % ANCHORS.length) "") (initialAnchor_mem rng) j hj
    simpa using this

/-- Witness for `promptChain_anchor_switching` on four concrete segments. -/
theorem promptChain_anchor_switching_witness :
    ∃ l, promptChain (fun k => k) "sty"
        [⟨0, 3, "a", 0, 0⟩, ⟨3, 6, "b", 1, 0⟩, ⟨6, 9, "c", 1/2, 0⟩, ⟨9, 12, "d", 1/4, 0⟩] =
        some l ∧
      l.length =
        ([⟨0, 3, "a", 0, 0⟩, ⟨3, 6, "b", 1, 0⟩, ⟨6, 9, "c", 1/2, 0⟩,
          ⟨9, 12, "d", 1/4, 0⟩] : List Segment).length ∧
      (∀ p ∈ l, p.1 ∈ ANCHORS) ∧
      ∀ j : ℕ, j + 1 < l.length →
        (((j + 1) % promptInterval
              [⟨0, 3, "a", 0, 0⟩, ⟨3, 6, "b", 1, 0⟩, ⟨6, 9, "c", 1/2, 0⟩,
               ⟨9, 12, "d", 1/4, 0⟩] = 0 →
            (l.getD (j + 1) ("", ⟨0, "", ""⟩)).1 ≠ (l.getD j ("", ⟨0, "", ""⟩)).1) ∧
         ((j + 1) % promptInterval
              [⟨0, 3, "a", 0, 0⟩, ⟨3, 6, "b", 1, 0⟩, ⟨6, 9, "c", 1/2, 0⟩,
               ⟨9, 12, "d", 1/4, 0⟩] ≠ 0 →
            (l.getD (j + 1) ("", ⟨0, "", ""⟩)).1 = (l.getD j ("", ⟨0, "", ""⟩)).1)) :=
  promptChain_anchor_switching (fun k => k) "sty"
    [⟨0, 3, "a", 0, 0⟩, ⟨3, 6, "b", 1, 0⟩, ⟨6, 9, "c", 1/2, 0⟩, ⟨9, 12, "d", 1/4, 0⟩]
    (by decide)

end MVG
